import Mathlib

/-!
Verification of the layer-visibility plugin (layers_visibility.py).

The plugin navigates "build-up slide" steps of a layered image.  We embed the
document as a list of top-level nodes (text layers, group layers and others),
each group owning a list of member layers.  The host primitives
(get/set visibility, opacity, fill, text) become field updates; the pair
gimp_context_set_foreground followed by gimp_drawable_fill(FILL_FOREGROUND)
is modelled as filling the drawable with that color.  A Python raise is
modelled by returning the document state reached so far together with an
error value, so "no mutation happened before the failure" is expressible.
-/

namespace LayersVisibility

/-- TOPMOST_OPACITY = 100 (percent), from the source header. -/
def TOPMOST_OPACITY : Nat := 100

/-- FADING_COLORS, the 4-entry palette: others, topmost, 2nd, 3rd. -/
def FADING_COLORS : List String := ["#A0A0A0", "#FF0000", "#00FF00", "#0000FF"]

/-- A member layer of a group: name, whether it is a plain layer (as opposed
to a nested group), its visibility flag and the color it is filled with. -/
structure MemberLayer where
  name : String
  isLayer : Bool
  visible : Bool
  fill : String
deriving DecidableEq

/-- A top-level node of the document: display name, group flag, text-layer
flag, textual content (for text layers), visibility, opacity (percent) and
the member layers (for groups). -/
structure Node where
  name : String
  isGroup : Bool
  isText : Bool
  text : String
  visible : Bool
  opacity : Nat
  members : List MemberLayer
deriving DecidableEq

/-- Bool test that the char list begins with the given pattern list. -/
def charsStart : List Char → List Char → Bool
  | [], _ => true
  | _ :: _, [] => false
  | a :: as, b :: bs => a == b && charsStart as bs

/-- Python s.startswith(p). -/
def strStarts (s p : String) : Bool :=
  charsStart p.toList s.toList

/-- Strip leading and trailing whitespace, as Python int() does before
parsing. -/
def pyTrim (s : String) : String :=
  String.mk (((s.toList.dropWhile (fun c => c.isWhitespace)).reverse.dropWhile
    (fun c => c.isWhitespace)).reverse)

/-- Value of a nonempty all-digit char list, otherwise none. -/
def digitsValue (ds : List Char) : Option Nat :=
  if ds.isEmpty then none
  else if ds.all (fun c => c.isDigit) then
    some (ds.foldl (fun a c => a * 10 + (c.toNat - 48)) 0)
  else none

/-- Python int(s): optional surrounding whitespace, optional sign, base-10
digits; none when the string does not parse. -/
def pyParseInt (s : String) : Option Int :=
  match (pyTrim s).toList with
  | '-' :: ds => (digitsValue ds).map (fun n => -(n : Int))
  | '+' :: ds => (digitsValue ds).map (fun n => (n : Int))
  | ds => (digitsValue ds).map (fun n => (n : Int))

/-- The label encoded in a group name: the name must start with "#", a second
"#" must occur later, and the substring between them must parse as an
integer.  Mirrors lines 33-44 of the source (startswith, index, int). -/
def parseGroupLabel (name : String) : Option Int :=
  if strStarts name "#" then
    match (name.toList.drop 1).findIdx? (fun ch => ch == '#') with
    | some k => pyParseInt (String.mk ((name.toList.drop 1).take k))
    | none => none
  else none

/-- Python dict assignment d[k] = v on an association list: overwrite the
existing entry for k in place, else append. -/
def insertAssoc (m : List (Int × Nat)) (k : Int) (v : Nat) : List (Int × Nat) :=
  if m.any (fun q => q.1 == k) then
    m.map (fun q => if q.1 == k then (k, v) else q)
  else m ++ [(k, v)]

/-- Worker for extract_relevant_groups: walks the top-level nodes keeping
the running index, which stands for the GIMP layer ID. -/
def extractAux : Nat → List Node → List (Int × Nat) → List (Int × Nat)
  | _, [], acc => acc
  | i, n :: rest, acc =>
    if n.isGroup then
      match parseGroupLabel n.name with
      | some label => extractAux (i + 1) rest (insertAssoc acc label i)
      | none => extractAux (i + 1) rest acc
    else extractAux (i + 1) rest acc

/-- extract_relevant_groups: mapping from label to the position of the group
among the top-level nodes (standing for its layer ID). -/
def extract_relevant_groups (image : List Node) : List (Int × Nat) :=
  extractAux 0 image []

/-- adjacent_label: sort the labels; direction true scans upward for the
first label above current_step, saturating at the largest; direction false
scans downward for the first label below, saturating at the smallest.
The none result corresponds to the IndexError a Python empty list raises. -/
def adjacent_label (labels : List Int) (current_step : Int) (direction : Bool) :
    Option Int :=
  let sorted_labels := labels.insertionSort (· ≤ ·)
  if direction then
    match sorted_labels.find? (fun l => decide (current_step < l)) with
    | some l => some l
    | none => sorted_labels.getLast?
  else
    match sorted_labels.reverse.find? (fun l => decide (l < current_step)) with
    | some l => some l
    | none => sorted_labels.head?

/-- Member predicate used by get_member_layer: a plain layer whose name
starts with the role pattern. -/
def memberPred (pre : String) (m : MemberLayer) : Bool :=
  m.isLayer && strStarts m.name pre

/-- get_member_layer: first member layer whose name starts with pre. -/
def get_member_layer (g : Node) (pre : String) : Option MemberLayer :=
  g.members.find? (memberPred pre)

/-- Mutate the first member matching the role pattern; when no member
matches (get_member_layer returns none) the list is unchanged, which is
exactly the source guard "if hint_layer:" / "if color_layer:". -/
def updateFirstMember (ms : List MemberLayer) (pre : String)
    (f : MemberLayer → MemberLayer) : List MemberLayer :=
  match ms with
  | [] => []
  | m :: rest =>
    if memberPred pre m then f m :: rest
    else m :: updateFirstMember rest pre f

/-- The un-clamped palette rank from the source:
max(0, 1*(label==step), 2*(label==second), 3*(label==third)). -/
def rawRank (second third : Option Int) (step label : Int) : Nat :=
  max (max (max 0 (if label = step then 1 else 0))
      (if second = some label then 2 else 0))
    (if third = some label then 3 else 0)

/-- The palette index of the source, line 137:
FADING_COLORS[min(len(FADING_COLORS), max(...))]. -/
def colorIndex (second third : Option Int) (step label : Int) : Nat :=
  min FADING_COLORS.length (rawRank second third step label)

/-- Body of the update_visibility loop for one (label, group) pair. -/
def update_group (second third : Option Int) (step label : Int) (g : Node) :
    Node :=
  if label > step then { g with visible := false }
  else
    let g1 : Node := { g with
      visible := true,
      opacity := if label = step then TOPMOST_OPACITY else 100 }
    let ms1 : List MemberLayer :=
      updateFirstMember g1.members "hint"
        (fun m => { m with visible := decide (label = step) })
    let ms2 : List MemberLayer :=
      updateFirstMember ms1 "color"
        (fun m => { m with fill :=
          FADING_COLORS.getD (colorIndex second third step label) "" })
    { g1 with members := ms2 }

/-- Lines 104-112 of the source: compute second_from_top and third_from_top
by walking downward twice, then disambiguate the saturated cases, third
first, then second.  none stands for the Python None. -/
def resolveSecondThird (labels : List Int) (step : Int) :
    Option (Option Int × Option Int) :=
  match adjacent_label labels step false with
  | none => none
  | some s2 =>
    match adjacent_label labels s2 false with
    | none => none
    | some s3 =>
      some (if s2 = step then none else some s2,
            if s3 = s2 then none else some s3)

/-- update_visibility on a label map whose group handles are dereferenced:
every label of the map names exactly one live group, so the map carries the
group states directly.  none corresponds to the IndexError raised on an
empty label list. -/
def update_visibility (groups : List (Int × Node)) (step : Int) :
    Option (List (Int × Node)) :=
  match resolveSecondThird (groups.map (fun q => q.1)) step with
  | none => none
  | some (second, third) =>
    some (groups.map (fun q => (q.1, update_group second third step q.1 q.2)))

/-- Replace the node at a given position. -/
def modifyIdx : List Node → Nat → (Node → Node) → List Node
  | [], _, _ => []
  | n :: rest, 0, f => f n :: rest
  | n :: rest, i + 1, f => n :: modifyIdx rest i f

/-- update_visibility acting on the document through the extracted
label-to-position map, as update_step invokes it. -/
def update_visibility_doc (image : List Node) (groups : List (Int × Nat))
    (step : Int) : Option (List Node) :=
  match resolveSecondThird (groups.map (fun q => q.1)) step with
  | none => none
  | some (second, third) =>
    some (groups.foldl
      (fun img q => modifyIdx img q.2 (update_group second third step q.1))
      image)

/-- First top-level text layer named exactly "step", with its position. -/
def findStepLayer : List Node → Option (Nat × Node)
  | [] => none
  | n :: rest =>
    if n.isText && n.name == "step" then some (0, n)
    else (findStepLayer rest).map (fun q => (q.1 + 1, q.2))

/-- The failures update_step can raise. -/
inductive StepError where
  | missingMarker
  | invalidContent
  | emptyLabelSet
deriving DecidableEq

/-- update_step: locate the step marker, parse its content, extract the
label map, move one step in the given direction, write the new step back
and update visibility.  The returned document is the state at exit, so an
error value is paired with the document exactly as mutated so far. -/
def update_step (image : List Node) (direction : Bool) :
    List Node × Option StepError :=
  match findStepLayer image with
  | none => (image, some .missingMarker)
  | some (idx, stepLayer) =>
    match pyParseInt stepLayer.text with
    | none => (image, some .invalidContent)
    | some current_step =>
      let groups := extract_relevant_groups image
      match adjacent_label (groups.map (fun q => q.1)) current_step direction with
      | none => (image, some .emptyLabelSet)
      | some new_step =>
        let image1 := modifyIdx image idx
          (fun n => { n with text := toString new_step })
        match update_visibility_doc image1 groups new_step with
        | none => (image1, some .emptyLabelSet)
        | some image2 => (image2, none)

/-- increase_step: advance (the display flush is an external effect). -/
def increase_step (image : List Node) : List Node × Option StepError :=
  update_step image true

/-- decrease_step: retreat. -/
def decrease_step (image : List Node) : List Node × Option StepError :=
  update_step image false

/-- Recency rank exactly as the claims state it: 1 for the current step,
else 2 for the second, else 3 for the third, else 0. -/
def claimRank (second third : Option Int) (step label : Int) : Nat :=
  if label = step then 1
  else if second = some label then 2
  else if third = some label then 3
  else 0

/-- Per-group rule in the words of the claims: hide groups beyond the
current step touching nothing else; otherwise show, set opacity, show the
hint member exactly on the current step, and fill the color member with the
palette entry at the recency rank. -/
def specPerGroupRule (second third : Option Int) (step label : Int) (g : Node) :
    Node :=
  if label > step then { g with visible := false }
  else
    let ms : List MemberLayer :=
      updateFirstMember
        (updateFirstMember g.members "hint"
          (fun m => { m with visible := decide (label = step) }))
        "color"
        (fun m => { m with fill :=
          FADING_COLORS.getD (claimRank second third step label) "" })
    { g with
      visible := true,
      opacity := if label = step then TOPMOST_OPACITY else 100,
      members := ms }

/-! ### Ordering facts about adjacent_label -/

/-- In an ascending list, the first element above x (when found) is a
member, is above x, and is the least element above x. -/
lemma find_gt_of_sorted {x : Int} :
    ∀ {s : List Int}, s.Sorted (· ≤ ·) → ∀ {m : Int},
      s.find? (fun l => decide (x < l)) = some m →
      m ∈ s ∧ x < m ∧ ∀ l ∈ s, x < l → m ≤ l := by
  intro s
  induction s with
  | nil => intro _ m h; simp at h
  | cons a t ih =>
    intro hs m h
    rcases List.sorted_cons.mp hs with ⟨ha, ht⟩
    by_cases hxa : x < a
    · rw [List.find?_cons_of_pos _ (by simpa using hxa)] at h
      obtain rfl : a = m := by simpa using h
      refine ⟨List.mem_cons_self a t, hxa, ?_⟩
      intro l hl _
      rcases List.mem_cons.mp hl with rfl | hl
      · exact le_refl _
      · exact ha l hl
    · rw [List.find?_cons_of_neg _ (by simpa using hxa)] at h
      obtain ⟨hm, hxm, hmin⟩ := ih ht h
      refine ⟨List.mem_cons_of_mem _ hm, hxm, ?_⟩
      intro l hl hxl
      rcases List.mem_cons.mp hl with rfl | hl
      · exact absurd hxl hxa
      · exact hmin l hl hxl

/-- In a descending list, the first element below x (when found) is a
member, is below x, and is the greatest element below x. -/
lemma find_lt_of_sorted_ge {x : Int} :
    ∀ {s : List Int}, s.Sorted (fun a b => b ≤ a) → ∀ {m : Int},
      s.find? (fun l => decide (l < x)) = some m →
      m ∈ s ∧ m < x ∧ ∀ l ∈ s, l < x → l ≤ m := by
  intro s
  induction s with
  | nil => intro _ m h; simp at h
  | cons a t ih =>
    intro hs m h
    rcases List.sorted_cons.mp hs with ⟨ha, ht⟩
    by_cases hax : a < x
    · rw [List.find?_cons_of_pos _ (by simpa using hax)] at h
      obtain rfl : a = m := by simpa using h
      refine ⟨List.mem_cons_self a t, hax, ?_⟩
      intro l hl _
      rcases List.mem_cons.mp hl with rfl | hl
      · exact le_refl _
      · exact ha l hl
    · rw [List.find?_cons_of_neg _ (by simpa using hax)] at h
      obtain ⟨hm, hxm, hmax⟩ := ih ht h
      refine ⟨List.mem_cons_of_mem _ hm, hxm, ?_⟩
      intro l hl hxl
      rcases List.mem_cons.mp hl with rfl | hl
      · exact absurd hxl hax
      · exact hmax l hl hxl

/-- The head of an ascending list is its least element. -/
lemma head_of_sorted_le {s : List Int} (hs : s.Sorted (· ≤ ·)) {m : Int}
    (h : s.head? = some m) : m ∈ s ∧ ∀ l ∈ s, m ≤ l := by
  cases s with
  | nil => simp at h
  | cons a t =>
    obtain rfl : a = m := by simpa using h
    rcases List.sorted_cons.mp hs with ⟨ha, _⟩
    refine ⟨List.mem_cons_self a t, ?_⟩
    intro l hl
    rcases List.mem_cons.mp hl with rfl | hl
    · exact le_refl _
    · exact ha l hl

/-- The last entry of an ascending list is its greatest element. -/
lemma getLast_of_sorted_le {s : List Int} (hs : s.Sorted (· ≤ ·)) {m : Int}
    (h : s.getLast? = some m) : m ∈ s ∧ ∀ l ∈ s, l ≤ m := by
  rw [List.getLast?_eq_head?_reverse] at h
  have hrev : s.reverse.Sorted (fun a b => b ≤ a) := by
    exact (List.pairwise_reverse).mpr hs
  cases hrs : s.reverse with
  | nil => rw [hrs] at h; simp at h
  | cons a t =>
    rw [hrs] at h hrev
    obtain rfl : a = m := by simpa using h
    rcases List.sorted_cons.mp hrev with ⟨ha, _⟩
    have hmem : a ∈ s.reverse := by rw [hrs]; exact List.mem_cons_self a t
    refine ⟨List.mem_reverse.mp hmem, ?_⟩
    intro l hl
    have hl' : l ∈ s.reverse := List.mem_reverse.mpr hl
    rw [hrs] at hl'
    rcases List.mem_cons.mp hl' with rfl | hl'
    · exact le_refl _
    · exact ha l hl'

/-- A successful adjacent_label result with direction true: either the
least label strictly above the reference, or, when no label is above, the
greatest label of the collection. -/
lemma adjacent_true_spec {labels : List Int} {x m : Int}
    (h : adjacent_label labels x true = some m) :
    m ∈ labels ∧
      ((x < m ∧ ∀ l ∈ labels, x < l → m ≤ l) ∨
        ((∀ l ∈ labels, l ≤ x) ∧ ∀ l ∈ labels, l ≤ m)) := by
  unfold adjacent_label at h
  simp only [if_true] at h
  set s := labels.insertionSort (· ≤ ·) with hsdef
  have hsort : s.Sorted (· ≤ ·) := List.sorted_insertionSort (· ≤ ·) labels
  have hperm : ∀ a : Int, a ∈ s ↔ a ∈ labels := by
    intro a; exact (List.perm_insertionSort (· ≤ ·) labels).mem_iff
  cases hf : s.find? (fun l => decide (x < l)) with
  | some v =>
    rw [hf] at h
    obtain rfl : v = m := by simpa using h
    obtain ⟨hm, hxm, hmin⟩ := find_gt_of_sorted hsort hf
    refine ⟨(hperm v).mp hm, Or.inl ⟨hxm, ?_⟩⟩
    intro l hl hxl
    exact hmin l ((hperm l).mpr hl) hxl
  | none =>
    rw [hf] at h
    have hall : ∀ l ∈ labels, l ≤ x := by
      intro l hl
      have := List.find?_eq_none.mp hf l ((hperm l).mpr hl)
      simpa using this
    obtain ⟨hm, hub⟩ := getLast_of_sorted_le hsort h
    exact ⟨(hperm m).mp hm, Or.inr ⟨hall, fun l hl => hub l ((hperm l).mpr hl)⟩⟩

/-- A successful adjacent_label result with direction false: either the
greatest label strictly below the reference, or, when no label is below,
the least label of the collection. -/
lemma adjacent_false_spec {labels : List Int} {x m : Int}
    (h : adjacent_label labels x false = some m) :
    m ∈ labels ∧
      ((m < x ∧ ∀ l ∈ labels, l < x → l ≤ m) ∨
        ((∀ l ∈ labels, x ≤ l) ∧ ∀ l ∈ labels, m ≤ l)) := by
  unfold adjacent_label at h
  simp only [Bool.false_eq_true, if_false] at h
  set s := labels.insertionSort (· ≤ ·) with hsdef
  have hsort : s.Sorted (· ≤ ·) := List.sorted_insertionSort (· ≤ ·) labels
  have hrev : s.reverse.Sorted (fun a b => b ≤ a) := (List.pairwise_reverse).mpr hsort
  have hperm : ∀ a : Int, a ∈ s ↔ a ∈ labels := by
    intro a; exact (List.perm_insertionSort (· ≤ ·) labels).mem_iff
  cases hf : s.reverse.find? (fun l => decide (l < x)) with
  | some v =>
    rw [hf] at h
    obtain rfl : v = m := by simpa using h
    obtain ⟨hm, hmx, hmax⟩ := find_lt_of_sorted_ge hrev hf
    refine ⟨(hperm v).mp (List.mem_reverse.mp hm), Or.inl ⟨hmx, ?_⟩⟩
    intro l hl hlx
    exact hmax l (List.mem_reverse.mpr ((hperm l).mpr hl)) hlx
  | none =>
    rw [hf] at h
    have hall : ∀ l ∈ labels, x ≤ l := by
      intro l hl
      have := List.find?_eq_none.mp hf l (List.mem_reverse.mpr ((hperm l).mpr hl))
      simp at this
      omega
    obtain ⟨hm, hlb⟩ := head_of_sorted_le hsort h
    exact ⟨(hperm m).mp hm, Or.inr ⟨hall, fun l hl => hlb l ((hperm l).mpr hl)⟩⟩

/-- A successful adjacent_label result is always one of the labels. -/
lemma adjacent_mem {labels : List Int} {x m : Int} {d : Bool}
    (h : adjacent_label labels x d = some m) : m ∈ labels := by
  cases d
  · exact (adjacent_false_spec h).1
  · exact (adjacent_true_spec h).1

/-- adjacent_label succeeds exactly on nonempty label collections. -/
lemma adjacent_isSome_iff (labels : List Int) (x : Int) (d : Bool) :
    (adjacent_label labels x d).isSome = true ↔ labels ≠ [] := by
  unfold adjacent_label
  have hperm := List.perm_insertionSort (· ≤ ·) labels
  have hlen : (labels.insertionSort (· ≤ ·)).length = labels.length :=
    hperm.length_eq
  constructor
  · intro h hnil
    rw [hnil] at h
    cases d <;> simp_all
  · intro hne
    have hslen : labels.insertionSort (· ≤ ·) ≠ [] := by
      intro hnil
      apply hne
      have := hlen
      rw [hnil] at this
      exact List.length_eq_zero.mp this.symm
    cases hs : labels.insertionSort (· ≤ ·) with
    | nil => exact absurd hs hslen
    | cons a t =>
      cases d
      · simp only [Bool.false_eq_true, if_false]
        cases hf : (a :: t).reverse.find? (fun l => decide (l < x)) with
        | some v => simp [hs, hf]
        | none => simp [hs, hf]
      · simp only [if_true]
        cases hf : (a :: t).find? (fun l => decide (x < l)) with
        | some v => simp [hs, hf]
        | none =>
          simp only [hs, hf]
          have : (a :: t).getLast?.isSome = true := by
            rw [List.getLast?_eq_head?_reverse]
            cases hr : (a :: t).reverse with
            | nil => exact absurd (List.reverse_eq_nil_iff.mp hr) (by simp)
            | cons b u => simp
          simp [this]

/-! ### Algebra of the member updates -/

/-- Setting the hint visibility, as the loop body does. -/
def setHint (v : Bool) (ms : List MemberLayer) : List MemberLayer :=
  updateFirstMember ms "hint" (fun m => { m with visible := v })

/-- Filling the color member, as the loop body does. -/
def setColor (c : String) (ms : List MemberLayer) : List MemberLayer :=
  updateFirstMember ms "color" (fun m => { m with fill := c })

lemma updateFirstMember_twice (pre : String) (f g : MemberLayer → MemberLayer)
    (hg : ∀ m, memberPred pre (g m) = memberPred pre m) :
    ∀ ms : List MemberLayer,
      updateFirstMember (updateFirstMember ms pre g) pre f =
        updateFirstMember ms pre (fun m => f (g m)) := by
  intro ms
  induction ms with
  | nil => rfl
  | cons m rest ih =>
    by_cases hm : memberPred pre m
    · simp [updateFirstMember, hm, hg m]
    · simp [updateFirstMember, hm, ih]

lemma updateFirstMember_comm (pre₁ pre₂ : String)
    (f g : MemberLayer → MemberLayer)
    (hexcl : ∀ m, memberPred pre₁ m = true → memberPred pre₂ m = false)
    (hf : ∀ m, memberPred pre₂ (f m) = memberPred pre₂ m)
    (hg : ∀ m, memberPred pre₁ (g m) = memberPred pre₁ m) :
    ∀ ms : List MemberLayer,
      updateFirstMember (updateFirstMember ms pre₂ g) pre₁ f =
        updateFirstMember (updateFirstMember ms pre₁ f) pre₂ g := by
  intro ms
  induction ms with
  | nil => rfl
  | cons m rest ih =>
    by_cases h1 : memberPred pre₁ m
    · have h2 : memberPred pre₂ m = false := hexcl m h1
      simp [updateFirstMember, h1, h2, hf m]
    · by_cases h2 : memberPred pre₂ m
      · simp [updateFirstMember, h1, h2, hg m]
      · simp [updateFirstMember, h1, h2, ih]

lemma charsStart_cons_ne {a b : Char} {as bs : List Char} (h : a ≠ b) :
    ∀ l : List Char, charsStart (a :: as) l = true →
      charsStart (b :: bs) l = false := by
  intro l
  cases l with
  | nil => intro hc; simp [charsStart] at hc
  | cons c cs =>
    intro hc
    simp only [charsStart, Bool.and_eq_true, beq_iff_eq] at hc
    obtain ⟨rfl, -⟩ := hc
    simp [charsStart, h]
    intro hb
    exact absurd hb.symm h

lemma memberPred_hint_color (m : MemberLayer) :
    memberPred "hint" m = true → memberPred "color" m = false := by
  unfold memberPred strStarts
  intro h
  rcases Bool.and_eq_true .. |>.mp h with ⟨h1, h2⟩
  rw [h1, Bool.true_and]
  have hh : "hint".toList = ['h', 'i', 'n', 't'] := rfl
  have hc : "color".toList = ['c', 'o', 'l', 'o', 'r'] := rfl
  rw [hh] at h2
  rw [hc]
  exact charsStart_cons_ne (by decide) _ h2

lemma setHint_setHint (v₁ v₂ : Bool) (ms : List MemberLayer) :
    setHint v₂ (setHint v₁ ms) = setHint v₂ ms := by
  unfold setHint
  rw [updateFirstMember_twice "hint" (fun m => { m with visible := v₂ })
    (fun m => { m with visible := v₁ }) (fun m => rfl) ms]

lemma setColor_setColor (c₁ c₂ : String) (ms : List MemberLayer) :
    setColor c₂ (setColor c₁ ms) = setColor c₂ ms := by
  unfold setColor
  rw [updateFirstMember_twice "color" (fun m => { m with fill := c₂ })
    (fun m => { m with fill := c₁ }) (fun m => rfl) ms]

lemma setHint_setColor_comm (v : Bool) (c : String) (ms : List MemberLayer) :
    setHint v (setColor c ms) = setColor c (setHint v ms) := by
  unfold setHint setColor
  exact updateFirstMember_comm "hint" "color"
    (fun m => { m with visible := v }) (fun m => { m with fill := c })
    memberPred_hint_color (fun m => rfl) (fun m => rfl) ms

/-- Two successive hint-and-color style passes collapse to the last one. -/
lemma style_collapse (v₁ v₂ : Bool) (c₁ c₂ : String) (ms : List MemberLayer) :
    setColor c₂ (setHint v₂ (setColor c₁ (setHint v₁ ms))) =
      setColor c₂ (setHint v₂ ms) := by
  rw [setHint_setColor_comm v₂ c₁, setHint_setHint, setColor_setColor]

/-! ### The loop body in closed form -/

lemma update_group_hide {sec thr : Option Int} {step label : Int} {g : Node}
    (h : step < label) :
    update_group sec thr step label g = { g with visible := false } := by
  simp [update_group, h]

lemma update_group_show {sec thr : Option Int} {step label : Int} {g : Node}
    (h : ¬ step < label) :
    update_group sec thr step label g =
      { g with
        visible := true,
        opacity := if label = step then TOPMOST_OPACITY else 100,
        members := setColor
          (FADING_COLORS.getD (colorIndex sec thr step label) "")
          (setHint (decide (label = step)) g.members) } := by
  simp [update_group, h, setHint, setColor]

/-- The loop body never changes the name, group flag, text flag or text of
a node. -/
lemma update_group_proj (sec thr : Option Int) (step label : Int) (g : Node) :
    (update_group sec thr step label g).name = g.name ∧
    (update_group sec thr step label g).isGroup = g.isGroup ∧
    (update_group sec thr step label g).isText = g.isText ∧
    (update_group sec thr step label g).text = g.text := by
  by_cases h : step < label
  · rw [update_group_hide h]; exact ⟨rfl, rfl, rfl, rfl⟩
  · rw [update_group_show h]; exact ⟨rfl, rfl, rfl, rfl⟩

/-- A later loop-body application at a step that keeps the group shown
overwrites every effect of an earlier application at any step. -/
lemma update_group_overwrite {sec thr sec' thr' : Option Int}
    {step step' label : Int} {g : Node} (h : ¬ step' < label) :
    update_group sec' thr' step' label (update_group sec thr step label g) =
      update_group sec' thr' step' label g := by
  by_cases h0 : step < label
  · rw [update_group_hide h0, update_group_show h, update_group_show h]
  · rw [update_group_show h0, update_group_show h, update_group_show h]
    have hms := style_collapse (decide (label = step))
      (decide (label = step'))
      (FADING_COLORS.getD (colorIndex sec thr step label) "")
      (FADING_COLORS.getD (colorIndex sec' thr' step' label) "") g.members
    cases g with
    | mk nm ig it tx vis op ms => simpa using hms

/-- Applying the loop body twice with the same arguments equals applying
it once. -/
lemma update_group_idem (sec thr : Option Int) (step label : Int) (g : Node) :
    update_group sec thr step label (update_group sec thr step label g) =
      update_group sec thr step label g := by
  by_cases h : step < label
  · rw [update_group_hide h, update_group_hide h]
  · exact update_group_overwrite h


/-- Structure of a successful resolveSecondThird, naming the two adjacent
results it was computed from. -/
lemma resolveSecondThird_eq {labels : List Int} {step : Int}
    {sec thr : Option Int}
    (h : resolveSecondThird labels step = some (sec, thr)) :
    ∃ s2 s3, adjacent_label labels step false = some s2 ∧
      adjacent_label labels s2 false = some s3 ∧
      sec = (if s2 = step then none else some s2) ∧
      thr = (if s3 = s2 then none else some s3) := by
  unfold resolveSecondThird at h
  cases h2 : adjacent_label labels step false with
  | none => rw [h2] at h; simp at h
  | some s2 =>
    rw [h2] at h
    dsimp only at h
    cases h3 : adjacent_label labels s2 false with
    | none => rw [h3] at h; simp at h
    | some s3 =>
      rw [h3] at h
      dsimp only at h
      simp only [Option.some.injEq, Prod.mk.injEq] at h
      exact ⟨s2, s3, rfl, h3, h.1.symm, h.2.symm⟩

/-- After the disambiguation, the second is never the current step, and the
third is never the current step nor the second. -/
lemma resolveSecondThird_inv {labels : List Int} {step : Int}
    {sec thr : Option Int}
    (h : resolveSecondThird labels step = some (sec, thr)) :
    (∀ s, sec = some s → s ≠ step) ∧
    (∀ t, thr = some t → t ≠ step ∧ thr ≠ sec) := by
  obtain ⟨s2, s3, h2, h3, hsec, hthr⟩ := resolveSecondThird_eq h
  obtain ⟨hs2mem, hs2cases⟩ := adjacent_false_spec h2
  obtain ⟨hs3mem, hs3cases⟩ := adjacent_false_spec h3
  constructor
  · intro s hs
    rw [hsec] at hs
    by_cases he : s2 = step
    · simp [he] at hs
    · simp only [he, if_false, Option.some.injEq] at hs
      omega
  · intro t ht
    rw [hthr] at ht
    by_cases he : s3 = s2
    · simp [he] at ht
    · simp only [he, if_false, Option.some.injEq] at ht
      have hlt : s3 < s2 := by
        rcases hs3cases with ⟨hlt, -⟩ | ⟨hge, hlb⟩
        · exact hlt
        · exact absurd (le_antisymm (hlb s2 hs2mem) (hge s3 hs3mem)) he
      have hltstep : s3 < step := by
        rcases hs2cases with ⟨h2lt, -⟩ | ⟨-, hlb2⟩
        · omega
        · have := hlb2 s3 hs3mem
          omega
      refine ⟨by omega, ?_⟩
      rw [hsec, hthr]
      rw [if_neg he]
      by_cases he2 : s2 = step
      · rw [if_pos he2]
        simp
      · rw [if_neg he2]
        simp only [Option.some.injEq, ne_eq]
        omega

/-- The raw rank of the source is at most 3. -/
lemma rawRank_le_three (sec thr : Option Int) (step label : Int) :
    rawRank sec thr step label ≤ 3 := by
  unfold rawRank
  split_ifs <;> decide

/-- Under the disambiguation invariants, the index expression of the
source equals the recency rank of the claims. -/
lemma colorIndex_eq_claimRank {sec thr : Option Int} {step label : Int}
    (hsec : ∀ s, sec = some s → s ≠ step)
    (hthr : ∀ t, thr = some t → t ≠ step ∧ thr ≠ sec) :
    colorIndex sec thr step label = claimRank sec thr step label := by
  unfold colorIndex rawRank claimRank
  by_cases h1 : label = step
  · have hs : ¬ sec = some label := fun hc => hsec label hc h1
    have ht : ¬ thr = some label := fun hc => (hthr label hc).1 h1
    rw [if_pos h1, if_neg hs, if_neg ht, if_pos h1]
    decide
  · by_cases h2 : sec = some label
    · have ht : ¬ thr = some label := fun hc => (hthr label hc).2 (by rw [hc, h2])
      rw [if_neg h1, if_pos h2, if_neg ht, if_neg h1, if_pos h2]
      decide
    · by_cases h3 : thr = some label
      · rw [if_neg h1, if_neg h2, if_pos h3, if_neg h1, if_neg h2]
        decide
      · rw [if_neg h1, if_neg h2, if_neg h3, if_neg h1, if_neg h2]
        decide

/-- Under the disambiguation invariants, the loop body is exactly the
per-group rule of the claims. -/
lemma update_group_eq_rule {sec thr : Option Int} {step label : Int}
    (g : Node)
    (hsec : ∀ s, sec = some s → s ≠ step)
    (hthr : ∀ t, thr = some t → t ≠ step ∧ thr ≠ sec) :
    update_group sec thr step label g =
      specPerGroupRule sec thr step label g := by
  by_cases h : step < label
  · rw [update_group_hide h]
    unfold specPerGroupRule
    rw [if_pos h]
  · rw [update_group_show h]
    unfold specPerGroupRule
    rw [if_neg h]
    rw [colorIndex_eq_claimRank hsec hthr]
    rfl


/-! ### Adjacency characterizations used by the claims -/

lemma adjacent_next_of_exists {labels : List Int} {x : Int}
    (h : ∃ l ∈ labels, x < l) :
    ∃ m, adjacent_label labels x true = some m ∧ m ∈ labels ∧ x < m ∧
      ∀ l ∈ labels, x < l → m ≤ l := by
  obtain ⟨l0, hl0, hxl0⟩ := h
  have hne : labels ≠ [] := by
    intro hc; rw [hc] at hl0; simp at hl0
  have hsome := (adjacent_isSome_iff labels x true).mpr hne
  cases hm : adjacent_label labels x true with
  | none => rw [hm] at hsome; simp at hsome
  | some m =>
    obtain ⟨hmem, hcases⟩ := adjacent_true_spec hm
    rcases hcases with ⟨hxm, hmin⟩ | ⟨hall, -⟩
    · exact ⟨m, rfl, hmem, hxm, hmin⟩
    · exact absurd hxl0 (by have := hall l0 hl0; omega)

lemma adjacent_next_of_all {labels : List Int} {x : Int} (hne : labels ≠ [])
    (h : ∀ l ∈ labels, l ≤ x) :
    ∃ m, adjacent_label labels x true = some m ∧ m ∈ labels ∧
      ∀ l ∈ labels, l ≤ m := by
  have hsome := (adjacent_isSome_iff labels x true).mpr hne
  cases hm : adjacent_label labels x true with
  | none => rw [hm] at hsome; simp at hsome
  | some m =>
    obtain ⟨hmem, hcases⟩ := adjacent_true_spec hm
    rcases hcases with ⟨hxm, -⟩ | ⟨-, hub⟩
    · exact absurd hxm (by have := h m hmem; omega)
    · exact ⟨m, rfl, hmem, hub⟩

lemma adjacent_prev_of_exists {labels : List Int} {x : Int}
    (h : ∃ l ∈ labels, l < x) :
    ∃ m, adjacent_label labels x false = some m ∧ m ∈ labels ∧ m < x ∧
      ∀ l ∈ labels, l < x → l ≤ m := by
  obtain ⟨l0, hl0, hxl0⟩ := h
  have hne : labels ≠ [] := by
    intro hc; rw [hc] at hl0; simp at hl0
  have hsome := (adjacent_isSome_iff labels x false).mpr hne
  cases hm : adjacent_label labels x false with
  | none => rw [hm] at hsome; simp at hsome
  | some m =>
    obtain ⟨hmem, hcases⟩ := adjacent_false_spec hm
    rcases hcases with ⟨hmx, hmax⟩ | ⟨hall, -⟩
    · exact ⟨m, rfl, hmem, hmx, hmax⟩
    · exact absurd hxl0 (by have := hall l0 hl0; omega)

lemma adjacent_prev_of_all {labels : List Int} {x : Int} (hne : labels ≠ [])
    (h : ∀ l ∈ labels, x ≤ l) :
    ∃ m, adjacent_label labels x false = some m ∧ m ∈ labels ∧
      ∀ l ∈ labels, m ≤ l := by
  have hsome := (adjacent_isSome_iff labels x false).mpr hne
  cases hm : adjacent_label labels x false with
  | none => rw [hm] at hsome; simp at hsome
  | some m =>
    obtain ⟨hmem, hcases⟩ := adjacent_false_spec hm
    rcases hcases with ⟨hmx, -⟩ | ⟨-, hlb⟩
    · exact absurd hmx (by have := h m hmem; omega)
    · exact ⟨m, rfl, hmem, hlb⟩

/-! ### Claim theorems -/

/-- Claim C2: for every non-empty collection of integer labels and every
reference value, direction next returns the smallest label strictly greater
than the reference, and the maximum label when no label is greater;
direction previous returns the greatest label strictly smaller than the
reference, and the minimum label when no label is smaller; moreover
adjacent_label [50, 10, 30] 42 previous = 30 and
adjacent_label [50, 10, 30] 77 next = 50. -/
theorem C2_adjacent_label_saturating (labels : List Int) (x : Int)
    (hne : labels ≠ []) :
    ((∃ l ∈ labels, x < l) →
      ∃ m, adjacent_label labels x true = some m ∧ m ∈ labels ∧ x < m ∧
        ∀ l ∈ labels, x < l → m ≤ l) ∧
    ((∀ l ∈ labels, l ≤ x) →
      ∃ m, adjacent_label labels x true = some m ∧ m ∈ labels ∧
        ∀ l ∈ labels, l ≤ m) ∧
    ((∃ l ∈ labels, l < x) →
      ∃ m, adjacent_label labels x false = some m ∧ m ∈ labels ∧ m < x ∧
        ∀ l ∈ labels, l < x → l ≤ m) ∧
    ((∀ l ∈ labels, x ≤ l) →
      ∃ m, adjacent_label labels x false = some m ∧ m ∈ labels ∧
        ∀ l ∈ labels, m ≤ l) ∧
    adjacent_label [50, 10, 30] 42 false = some 30 ∧
    adjacent_label [50, 10, 30] 77 true = some 50 := by
  refine ⟨fun h => adjacent_next_of_exists h,
    fun h => adjacent_next_of_all hne h,
    fun h => adjacent_prev_of_exists h,
    fun h => adjacent_prev_of_all hne h, by decide, by decide⟩

/-- Witness for C2 at the concrete input [50, 10, 30] with reference 42. -/
theorem C2_adjacent_label_saturating_witness :
    (([50, 10, 30] : List Int) ≠ []) ∧
    ((∃ l ∈ ([50, 10, 30] : List Int), (42 : Int) < l) →
      ∃ m, adjacent_label [50, 10, 30] 42 true = some m ∧
        m ∈ ([50, 10, 30] : List Int) ∧ (42 : Int) < m ∧
        ∀ l ∈ ([50, 10, 30] : List Int), 42 < l → m ≤ l) :=
  ⟨by decide, (C2_adjacent_label_saturating [50, 10, 30] 42 (by decide)).1⟩

/-- Claim C3 as stated is false: with S = [10, 30] and x = 30 we have
x at least the maximum of S, yet adjacent with direction next returns 30,
the maximum, not the minimum 10 the claim demands; dually for previous. -/
theorem C3_counterexample :
    (∀ l ∈ ([10, 30] : List Int), l ≤ 30) ∧
    (10 ∈ ([10, 30] : List Int) ∧ ∀ l ∈ ([10, 30] : List Int), 10 ≤ l) ∧
    adjacent_label [10, 30] 30 true = some 30 ∧
    adjacent_label [10, 30] 30 true ≠ some 10 ∧
    (∀ l ∈ ([10, 30] : List Int), 10 ≤ l) ∧
    (30 ∈ ([10, 30] : List Int) ∧ ∀ l ∈ ([10, 30] : List Int), l ≤ 30) ∧
    adjacent_label [10, 30] 10 false = some 10 ∧
    adjacent_label [10, 30] 10 false ≠ some 30 := by
  decide

/-- Claim C3 amended: the saturation goes to the extremum on the same side:
next returns the maximum element of S when x is at least max(S) (otherwise
the smallest element strictly greater than x), and previous returns the
minimum element of S when x is at most min(S) (otherwise the largest
element strictly smaller than x).  A finite set is given by any list of
its elements. -/
theorem C3_amended_adjacent_extremal (S : List Int) (x : Int) (hne : S ≠ []) :
    ((∀ l ∈ S, l ≤ x) →
      ∃ m, adjacent_label S x true = some m ∧ m ∈ S ∧ ∀ l ∈ S, l ≤ m) ∧
    ((∃ l ∈ S, x < l) →
      ∃ m, adjacent_label S x true = some m ∧ m ∈ S ∧ x < m ∧
        ∀ l ∈ S, x < l → m ≤ l) ∧
    ((∀ l ∈ S, x ≤ l) →
      ∃ m, adjacent_label S x false = some m ∧ m ∈ S ∧ ∀ l ∈ S, m ≤ l) ∧
    ((∃ l ∈ S, l < x) →
      ∃ m, adjacent_label S x false = some m ∧ m ∈ S ∧ m < x ∧
        ∀ l ∈ S, l < x → l ≤ m) := by
  refine ⟨fun h => adjacent_next_of_all hne h,
    fun h => adjacent_next_of_exists h,
    fun h => adjacent_prev_of_all hne h,
    fun h => adjacent_prev_of_exists h⟩

/-- Witness for the amended C3 at S = [10, 30], x = 30. -/
theorem C3_amended_adjacent_extremal_witness :
    (([10, 30] : List Int) ≠ []) ∧
    ((∀ l ∈ ([10, 30] : List Int), l ≤ (30 : Int)) →
      ∃ m, adjacent_label [10, 30] 30 true = some m ∧
        m ∈ ([10, 30] : List Int) ∧ ∀ l ∈ ([10, 30] : List Int), l ≤ m) :=
  ⟨by decide, (C3_amended_adjacent_extremal [10, 30] 30 (by decide)).1⟩

/-- Claim C1: on any label map and current step for which the second and
third predecessors resolve, the updater maps every (label, group) pair
through exactly the per-group rule: hide groups beyond the current step
touching nothing else of them, otherwise show the group with the topmost
opacity exactly on the current step, hint member visible exactly on the
current step, and the color member filled with the palette entry at the
recency rank (1 current, 2 second, 3 third, 0 otherwise). -/
theorem C1_updater_applies_per_group_rule {groups : List (Int × Node)}
    {step : Int} {sec thr : Option Int}
    (h : resolveSecondThird (groups.map (fun q => q.1)) step =
      some (sec, thr)) :
    update_visibility groups step =
      some (groups.map (fun q =>
        (q.1, specPerGroupRule sec thr step q.1 q.2))) := by
  obtain ⟨hsec, hthr⟩ := resolveSecondThird_inv h
  unfold update_visibility
  rw [h]
  dsimp only
  congr 1
  apply List.map_congr_left
  intro q _
  rw [update_group_eq_rule q.2 hsec hthr]

/-- Witness for C1 on the label map 10, 30, 50 at current step 50. -/
theorem C1_updater_applies_per_group_rule_witness :
    resolveSecondThird
        (([(10, Node.mk "#10# a" true false "" false 50 []),
           (30, Node.mk "#30# b" true false "" false 50 []),
           (50, Node.mk "#50# c" true false "" false 50 [])].map
          (fun q => q.1))) 50 = some (some 30, some 10) ∧
    update_visibility
        [(10, Node.mk "#10# a" true false "" false 50 []),
         (30, Node.mk "#30# b" true false "" false 50 []),
         (50, Node.mk "#50# c" true false "" false 50 [])] 50 =
      some ([(10, Node.mk "#10# a" true false "" false 50 []),
             (30, Node.mk "#30# b" true false "" false 50 []),
             (50, Node.mk "#50# c" true false "" false 50 [])].map
        (fun q => (q.1, specPerGroupRule (some 30) (some 10) 50 q.1 q.2))) :=
  ⟨by decide, C1_updater_applies_per_group_rule (by decide)⟩

/-- Claim C9: whenever the second and third predecessors resolve, the
palette index the source computes equals the recency rank of the claims,
lies strictly below the palette length (so the access is in bounds), and
the clamping min of the source never changes the raw rank, which is at
most 3. -/
theorem C9_palette_index_in_bounds {labels : List Int} {step : Int}
    {sec thr : Option Int}
    (h : resolveSecondThird labels step = some (sec, thr)) (label : Int) :
    colorIndex sec thr step label = claimRank sec thr step label ∧
    colorIndex sec thr step label < FADING_COLORS.length ∧
    colorIndex sec thr step label = rawRank sec thr step label ∧
    rawRank sec thr step label ≤ 3 := by
  obtain ⟨hsec, hthr⟩ := resolveSecondThird_inv h
  have hle := rawRank_le_three sec thr step label
  refine ⟨colorIndex_eq_claimRank hsec hthr, ?_, ?_, hle⟩
  · unfold colorIndex
    have hlen : FADING_COLORS.length = 4 := by decide
    omega
  · unfold colorIndex
    have hlen : FADING_COLORS.length = 4 := by decide
    omega

/-- Witness for C9 with label map 10, 30, 50 at step 50, label 30. -/
theorem C9_palette_index_in_bounds_witness :
    resolveSecondThird [10, 30, 50] 50 = some (some 30, some 10) ∧
    (colorIndex (some 30) (some 10) 50 30 = claimRank (some 30) (some 10) 50 30 ∧
     colorIndex (some 30) (some 10) 50 30 < FADING_COLORS.length ∧
     colorIndex (some 30) (some 10) 50 30 = rawRank (some 30) (some 10) 50 30 ∧
     rawRank (some 30) (some 10) 50 30 ≤ 3) :=
  ⟨by decide, @C9_palette_index_in_bounds [10, 30, 50] 50 (some 30) (some 10) (by decide) 30⟩


/-! ### Concrete example documents -/

/-- A hint member, initially invisible. -/
def exHint : MemberLayer := ⟨"hint overlay", true, false, "#FFFFFF"⟩

/-- A color member with an arbitrary initial fill. -/
def exColor : MemberLayer := ⟨"color fill", true, true, "#123456"⟩

/-- An example step group with a hint and a color member. -/
def exNode (nm : String) : Node := ⟨nm, true, false, "", false, 50, [exHint, exColor]⟩

/-- The dereferenced label map 10, 30, 50 of the worked examples. -/
def exGroups : List (Int × Node) :=
  [(10, exNode "#10# base"), (30, exNode "#30# mid"), (50, exNode "#50# top")]

/-- Claim C4: the updater resolves second and third by walking downward
twice and then, in this order, clears third when it equals second and
clears second when it equals the current step; on labels 10, 30, 50 at
step 50 this yields second 30 and third 10 with palette entries 1, 2, 3
and the topmost opacity on group 50, and at step 10 both are cleared, only
group 10 is shown at full 100 opacity with palette entry 1, groups 30 and 50
hidden and otherwise untouched. -/
theorem C4_second_third_and_examples :
    resolveSecondThird [10, 30, 50] 50 = some (some 30, some 10) ∧
    resolveSecondThird [10, 30, 50] 10 = some (none, none) ∧
    resolveSecondThird [10, 30] 30 = some (some 10, none) ∧
    update_visibility exGroups 50 = some
      [(10, ⟨"#10# base", true, false, "", true, 100,
        [exHint, ⟨"color fill", true, true, "#0000FF"⟩]⟩),
       (30, ⟨"#30# mid", true, false, "", true, 100,
        [exHint, ⟨"color fill", true, true, "#00FF00"⟩]⟩),
       (50, ⟨"#50# top", true, false, "", true, TOPMOST_OPACITY,
        [⟨"hint overlay", true, true, "#FFFFFF"⟩,
         ⟨"color fill", true, true, "#FF0000"⟩]⟩)] ∧
    update_visibility exGroups 10 = some
      [(10, ⟨"#10# base", true, false, "", true, TOPMOST_OPACITY,
        [⟨"hint overlay", true, true, "#FFFFFF"⟩,
         ⟨"color fill", true, true, "#FF0000"⟩]⟩),
       (30, ⟨"#30# mid", true, false, "", false, 50, [exHint, exColor]⟩),
       (50, ⟨"#50# top", true, false, "", false, 50, [exHint, exColor]⟩)] := by
  decide

/-! ### Idempotence and determinism of the updater -/

lemma update_visibility_labels {groups : List (Int × Node)} {step : Int}
    {out : List (Int × Node)}
    (h : update_visibility groups step = some out) :
    out.map (fun q => q.1) = groups.map (fun q => q.1) := by
  unfold update_visibility at h
  cases hr : resolveSecondThird (groups.map (fun q => q.1)) step with
  | none => rw [hr] at h; simp at h
  | some st =>
    obtain ⟨sec, thr⟩ := st
    rw [hr] at h
    dsimp only at h
    simp only [Option.some.injEq] at h
    subst h
    rw [List.map_map]
    rfl

lemma update_group_visible (sec thr : Option Int) (step label : Int)
    (g : Node) :
    (update_group sec thr step label g).visible = decide (label ≤ step) := by
  by_cases h : step < label
  · have hd : ¬ label ≤ step := by omega
    rw [update_group_hide h]
    simp [hd]
  · have hd : label ≤ step := by omega
    rw [update_group_show h]
    simp [hd]

lemma update_visibility_visible {groups : List (Int × Node)} {step : Int}
    {out : List (Int × Node)}
    (h : update_visibility groups step = some out) :
    out.map (fun q => (q.1, q.2.visible)) =
      (groups.map (fun q => q.1)).map
        (fun l => (l, decide (l ≤ step))) := by
  unfold update_visibility at h
  cases hr : resolveSecondThird (groups.map (fun q => q.1)) step with
  | none => rw [hr] at h; simp at h
  | some st =>
    obtain ⟨sec, thr⟩ := st
    rw [hr] at h
    dsimp only at h
    simp only [Option.some.injEq] at h
    subst h
    rw [List.map_map, List.map_map]
    apply List.map_congr_left
    intro q _
    simp [update_group_visible]

/-- Claim C6 counterexample: two documents with the same label set and the
same current step, differing only in the stored opacity of a group beyond
the current step, are mapped to different final states, so the resulting
visibility, opacity and color state is not fully determined by the pair of
label set and current step. -/
theorem C6_counterexample :
    ([(10, Node.mk "#10# a" true false "" false 50 []),
      (30, Node.mk "#30# b" true false "" false 55 [])].map (fun q => q.1) =
     [(10, Node.mk "#10# a" true false "" false 50 []),
      (30, Node.mk "#30# b" true false "" false 77 [])].map (fun q => q.1)) ∧
    update_visibility
        [(10, Node.mk "#10# a" true false "" false 50 []),
         (30, Node.mk "#30# b" true false "" false 55 [])] 10 ≠
      update_visibility
        [(10, Node.mk "#10# a" true false "" false 50 []),
         (30, Node.mk "#30# b" true false "" false 77 [])] 10 := by
  decide

/-- Claim C6 amended: the updater is idempotent; the visibility flags of
the result are fully determined by the label sequence and the current step;
and every group beyond the current step keeps all of its state but its
visibility, which is the only reason the full final state can depend on the
previous document state. -/
theorem C6_amended_idempotent_updater {groups : List (Int × Node)}
    {step : Int} {out : List (Int × Node)}
    (h : update_visibility groups step = some out) :
    update_visibility out step = some out ∧
    (∀ (groups' out' : List (Int × Node)),
      groups'.map (fun q => q.1) = groups.map (fun q => q.1) →
      update_visibility groups' step = some out' →
      out'.map (fun q => (q.1, q.2.visible)) =
        out.map (fun q => (q.1, q.2.visible))) ∧
    (∀ (i : Nat) (l : Int) (g : Node), groups[i]? = some (l, g) →
      step < l → out[i]? = some (l, { g with visible := false })) := by
  have hl := update_visibility_labels h
  refine ⟨?_, ?_, ?_⟩
  · unfold update_visibility at h ⊢
    cases hr : resolveSecondThird (groups.map (fun q => q.1)) step with
    | none => rw [hr] at h; simp at h
    | some st =>
      obtain ⟨sec, thr⟩ := st
      rw [hr] at h
      dsimp only at h
      simp only [Option.some.injEq] at h
      rw [hl, hr]
      dsimp only
      rw [← h]
      rw [List.map_map]
      congr 1
      apply List.map_congr_left
      intro q _
      simp [update_group_idem]
  · intro groups' out' hmap h'
    rw [update_visibility_visible h', update_visibility_visible h, hmap]
  · intro i l g hget hlt
    unfold update_visibility at h
    cases hr : resolveSecondThird (groups.map (fun q => q.1)) step with
    | none => rw [hr] at h; simp at h
    | some st =>
      obtain ⟨sec, thr⟩ := st
      rw [hr] at h
      dsimp only at h
      simp only [Option.some.injEq] at h
      subst h
      rw [List.getElem?_map, hget]
      simp [update_group_hide hlt]

/-- Witness for the amended C6 on a one-group map at step 10. -/
theorem C6_amended_idempotent_updater_witness :
    update_visibility [(10, Node.mk "#10# a" true false "" false 50 [])] 10 =
      some [(10, Node.mk "#10# a" true false "" true 100 [])] ∧
    update_visibility [(10, Node.mk "#10# a" true false "" true 100 [])] 10 =
      some [(10, Node.mk "#10# a" true false "" true 100 [])] :=
  ⟨by decide,
    (@C6_amended_idempotent_updater
      [(10, Node.mk "#10# a" true false "" false 50 [])] 10
      [(10, Node.mk "#10# a" true false "" true 100 [])] (by decide)).1⟩


/-! ### The label parser keeps only qualifying groups -/

lemma insertAssoc_mem {m : List (Int × Nat)} {k : Int} {v : Nat}
    {q : Int × Nat} (h : q ∈ insertAssoc m k v) : q ∈ m ∨ q = (k, v) := by
  unfold insertAssoc at h
  by_cases hc : m.any (fun r => r.1 == k)
  · rw [if_pos hc] at h
    obtain ⟨r, hr, hq⟩ := List.mem_map.mp h
    by_cases he : r.1 == k
    · rw [if_pos he] at hq
      right; exact hq.symm
    · rw [if_neg he] at hq
      left; exact hq ▸ hr
  · rw [if_neg hc] at h
    rcases List.mem_append.mp h with h | h
    · left; exact h
    · right; simpa using h

lemma extractAux_mem :
    ∀ (rest : List Node) (i : Nat) (acc : List (Int × Nat))
      {label : Int} {j : Nat}, (label, j) ∈ extractAux i rest acc →
      (label, j) ∈ acc ∨ ∃ n : Node, i ≤ j ∧ rest[j - i]? = some n ∧
        n.isGroup = true ∧ parseGroupLabel n.name = some label := by
  intro rest
  induction rest with
  | nil =>
    intro i acc label j h
    left
    exact h
  | cons n rest' ih =>
    intro i acc label j h
    have hstep :
        ∀ acc', (label, j) ∈ extractAux (i + 1) rest' acc' →
          ((label, j) ∈ acc' ∨
            ∃ n' : Node, i ≤ j ∧ (n :: rest')[j - i]? = some n' ∧
              n'.isGroup = true ∧ parseGroupLabel n'.name = some label) := by
      intro acc' h'
      rcases ih (i + 1) acc' h' with hacc | ⟨n', hij, hget, hg', hp'⟩
      · left; exact hacc
      · right
        refine ⟨n', by omega, ?_, hg', hp'⟩
        have hidx : j - i = (j - (i + 1)) + 1 := by omega
        rw [hidx]
        simpa using hget
    unfold extractAux at h
    by_cases hg : n.isGroup
    · rw [if_pos hg] at h
      cases hp : parseGroupLabel n.name with
      | some lab =>
        rw [hp] at h
        rcases hstep _ h with hacc | hrest
        · rcases insertAssoc_mem hacc with hacc' | heq
          · left; exact hacc'
          · right
            obtain ⟨h1, h2⟩ := Prod.mk.injEq .. |>.mp heq
            subst h1
            subst h2
            refine ⟨n, le_refl _, ?_, hg, hp⟩
            simp
        · right; exact hrest
      | none =>
        rw [hp] at h
        rcases hstep _ h with hacc | hrest
        · left; exact hacc
        · right; exact hrest
    · rw [if_neg hg] at h
      rcases hstep _ h with hacc | hrest
      · left; exact hacc
      · right; exact hrest

/-- Inversion of the label parser: success forces the leading hash, the
second hash and the parse of the substring between them. -/
lemma parseGroupLabel_inv {name : String} {label : Int}
    (h : parseGroupLabel name = some label) :
    strStarts name "#" = true ∧
    ∃ k, (name.toList.drop 1).findIdx? (fun ch => ch == '#') = some k ∧
      pyParseInt (String.mk ((name.toList.drop 1).take k)) = some label := by
  unfold parseGroupLabel at h
  by_cases hs : strStarts name "#"
  · rw [if_pos hs] at h
    cases hk : (name.toList.drop 1).findIdx? (fun ch => ch == '#') with
    | none => rw [hk] at h; simp at h
    | some k =>
      rw [hk] at h
      exact ⟨hs, k, rfl, h⟩
  · rw [if_neg hs] at h
    simp at h

/-- Claim C8: a top-level node contributes to the extracted label map only
if it is a group node whose name starts with a hash, contains a second
hash after the first position, and whose substring between the two hashes
parses as a base-10 integer (optional sign); nodes failing any condition
are skipped, as the closed examples of ill-formed names show. -/
theorem C8_extract_keeps_only_qualifying_groups {image : List Node}
    {label : Int} {j : Nat}
    (h : (label, j) ∈ extract_relevant_groups image) :
    (∃ n : Node, image[j]? = some n ∧ n.isGroup = true ∧
      strStarts n.name "#" = true ∧
      ∃ k, (n.name.toList.drop 1).findIdx? (fun ch => ch == '#') = some k ∧
        pyParseInt (String.mk ((n.name.toList.drop 1).take k)) =
          some label) ∧
    extract_relevant_groups
      [⟨"plain layer", true, false, "", true, 100, []⟩,
       ⟨"#nonum# x", true, false, "", true, 100, []⟩,
       ⟨"#12 no closing hash", true, false, "", true, 100, []⟩,
       ⟨"#7# but not a group", false, false, "", true, 100, []⟩,
       ⟨"## empty", true, false, "", true, 100, []⟩] = [] := by
  refine ⟨?_, by decide⟩
  rcases extractAux_mem image 0 [] h with hacc | ⟨n, -, hget, hg, hp⟩
  · simp at hacc
  · obtain ⟨hs, k, hk, hv⟩ := parseGroupLabel_inv hp
    refine ⟨n, ?_, hg, hs, k, hk, hv⟩
    simpa using hget

/-- Witness for C8 on a one-group document. -/
theorem C8_extract_keeps_only_qualifying_groups_witness :
    ((10, 0) ∈ extract_relevant_groups
      [⟨"#10# base", true, false, "", true, 100, []⟩]) ∧
    ((∃ n : Node,
      [(⟨"#10# base", true, false, "", true, 100, []⟩ : Node)][(0 : Nat)]? =
        some n ∧ n.isGroup = true ∧
      strStarts n.name "#" = true ∧
      ∃ k, (n.name.toList.drop 1).findIdx? (fun ch => ch == '#') = some k ∧
        pyParseInt (String.mk ((n.name.toList.drop 1).take k)) =
          some 10) ∧
    extract_relevant_groups
      [⟨"plain layer", true, false, "", true, 100, []⟩,
       ⟨"#nonum# x", true, false, "", true, 100, []⟩,
       ⟨"#12 no closing hash", true, false, "", true, 100, []⟩,
       ⟨"#7# but not a group", false, false, "", true, 100, []⟩,
       ⟨"## empty", true, false, "", true, 100, []⟩] = []) :=
  ⟨by decide, C8_extract_keeps_only_qualifying_groups (by decide)⟩


/-! ### The step controller: failures and the marker invariant -/

/-- Claim C5: the step controller fails with the missing-marker error when
no text layer named step exists, fails with the invalid-content error when
the marker text does not parse as an integer, and in both cases returns
the document exactly as it received it: both checks run before any
mutation. -/
theorem C5_step_controller_failures (image : List Node) (direction : Bool) :
    (findStepLayer image = none →
      update_step image direction = (image, some StepError.missingMarker)) ∧
    (∀ (i : Nat) (n : Node), findStepLayer image = some (i, n) →
      pyParseInt n.text = none →
      update_step image direction =
        (image, some StepError.invalidContent)) := by
  constructor
  · intro h
    unfold update_step
    rw [h]
  · intro i n hfind hparse
    unfold update_step
    rw [hfind]
    dsimp only
    rw [hparse]

/-- Witness for C5: the empty document misses the marker; a document whose
marker holds the text abc fails the parse; both are returned unchanged. -/
theorem C5_step_controller_failures_witness :
    (findStepLayer [] = none ∧
      update_step [] true = ([], some StepError.missingMarker)) ∧
    (findStepLayer [Node.mk "step" false true "abc" true 100 []] =
        some (0, Node.mk "step" false true "abc" true 100 []) ∧
      pyParseInt "abc" = none ∧
      update_step [Node.mk "step" false true "abc" true 100 []] false =
        ([Node.mk "step" false true "abc" true 100 []],
          some StepError.invalidContent)) :=
  ⟨⟨by decide, (C5_step_controller_failures [] true).1 (by decide)⟩,
   ⟨by decide, by decide,
    (C5_step_controller_failures
      [Node.mk "step" false true "abc" true 100 []] false).2 0
      (Node.mk "step" false true "abc" true 100 []) (by decide) (by decide)⟩⟩

/-- The identification fields of a node that the visibility updater never
touches: name, text-layer flag and text. -/
def nodeKey (n : Node) : String × Bool × String := (n.name, n.isText, n.text)

lemma modifyIdx_map_key {f : Node → Node}
    (hp : ∀ n, nodeKey (f n) = nodeKey n) :
    ∀ (l : List Node) (i : Nat),
      (modifyIdx l i f).map nodeKey = l.map nodeKey := by
  intro l
  induction l with
  | nil => intro i; rfl
  | cons n rest ih =>
    intro i
    cases i with
    | zero =>
      show (f n :: rest).map nodeKey = (n :: rest).map nodeKey
      simp [hp n]
    | succ i0 =>
      show (n :: modifyIdx rest i0 f).map nodeKey = (n :: rest).map nodeKey
      simp [ih i0]

lemma foldl_update_map_key (sec thr : Option Int) (step : Int) :
    ∀ (groups : List (Int × Nat)) (image : List Node),
      (groups.foldl
        (fun img q => modifyIdx img q.2 (update_group sec thr step q.1))
        image).map nodeKey = image.map nodeKey := by
  intro groups
  induction groups with
  | nil => intro image; rfl
  | cons q gs ih =>
    intro image
    rw [List.foldl_cons, ih]
    apply modifyIdx_map_key
    intro n
    obtain ⟨h1, -, h3, h4⟩ := update_group_proj sec thr step q.1 n
    unfold nodeKey
    rw [h1, h3, h4]

lemma update_visibility_doc_map_key {image out : List Node}
    {groups : List (Int × Nat)} {step : Int}
    (h : update_visibility_doc image groups step = some out) :
    out.map nodeKey = image.map nodeKey := by
  unfold update_visibility_doc at h
  cases hr : resolveSecondThird (groups.map (fun q => q.1)) step with
  | none => rw [hr] at h; simp at h
  | some st =>
    obtain ⟨sec, thr⟩ := st
    rw [hr] at h
    dsimp only at h
    simp only [Option.some.injEq] at h
    subst h
    exact foldl_update_map_key sec thr step groups image

lemma findStepLayer_modifyIdx {f : Node → Node}
    (hp : ∀ n, (f n).isText = n.isText ∧ (f n).name = n.name) :
    ∀ (image : List Node) (idx : Nat) (sl : Node),
      findStepLayer image = some (idx, sl) →
      findStepLayer (modifyIdx image idx f) = some (idx, f sl) := by
  intro image
  induction image with
  | nil => intro idx sl h; simp [findStepLayer] at h
  | cons n rest ih =>
    intro idx sl h
    by_cases hpred : n.isText && n.name == "step"
    · unfold findStepLayer at h
      rw [if_pos hpred] at h
      simp only [Option.some.injEq, Prod.mk.injEq] at h
      obtain ⟨h0, hn⟩ := h
      subst h0
      subst hn
      show findStepLayer (f n :: rest) = some (0, f n)
      unfold findStepLayer
      have hb : (f n).isText && (f n).name == "step" := by
        rw [(hp n).1, (hp n).2]; exact hpred
      rw [if_pos hb]
    · unfold findStepLayer at h
      rw [if_neg hpred] at h
      cases hrest : findStepLayer rest with
      | none => rw [hrest] at h; simp at h
      | some q =>
        obtain ⟨i0, sl0⟩ := q
        rw [hrest] at h
        simp only [Option.map_some', Option.some.injEq, Prod.mk.injEq] at h
        obtain ⟨h0, hn⟩ := h
        subst hn
        cases idx with
        | zero => omega
        | succ i1 =>
          have hi : i0 = i1 := by omega
          subst hi
          show findStepLayer (n :: modifyIdx rest i0 f) = some (i0 + 1, f sl0)
          unfold findStepLayer
          rw [if_neg hpred, ih i0 sl0 hrest]
          rfl

lemma findStepLayer_congr_key :
    ∀ {l₁ l₂ : List Node}, l₂.map nodeKey = l₁.map nodeKey →
      ∀ {i : Nat} {n₁ : Node}, findStepLayer l₁ = some (i, n₁) →
        ∃ n₂, findStepLayer l₂ = some (i, n₂) ∧ nodeKey n₂ = nodeKey n₁ := by
  intro l₁
  induction l₁ with
  | nil =>
    intro l₂ hmap i n₁ h
    simp [findStepLayer] at h
  | cons a rest ih =>
    intro l₂ hmap i n₁ h
    cases l₂ with
    | nil => simp at hmap
    | cons b rest₂ =>
      simp only [List.map_cons, List.cons.injEq] at hmap
      obtain ⟨hb, hrest⟩ := hmap
      have hname : b.name = a.name := congrArg (fun p => p.1) hb
      have htext2 : b.isText = a.isText := congrArg (fun p => p.2.1) hb
      have hab : (b.isText && b.name == "step") =
          (a.isText && a.name == "step") := by rw [hname, htext2]
      by_cases hpred : a.isText && a.name == "step"
      · unfold findStepLayer at h
        rw [if_pos hpred] at h
        simp only [Option.some.injEq, Prod.mk.injEq] at h
        obtain ⟨h0, hn⟩ := h
        subst h0
        subst hn
        refine ⟨b, ?_, hb⟩
        unfold findStepLayer
        rw [if_pos (by rw [hab]; exact hpred)]
      · unfold findStepLayer at h
        rw [if_neg hpred] at h
        cases hr : findStepLayer rest with
        | none => rw [hr] at h; simp at h
        | some q =>
          obtain ⟨i0, n0⟩ := q
          rw [hr] at h
          simp only [Option.map_some', Option.some.injEq, Prod.mk.injEq] at h
          obtain ⟨h0, hn⟩ := h
          subst hn
          obtain ⟨n₂, h₂, hk⟩ := ih hrest hr
          refine ⟨n₂, ?_, hk⟩
          unfold findStepLayer
          rw [if_neg (by rw [hab]; exact hpred), h₂]
          simp [h0]


/-- Claim C10: whenever a step action succeeds, the new marker text is the
decimal string of a label drawn from the freshly extracted label map (the
previous marker content need not belong to the label set), and the
visibility updater is invoked with exactly that label as the current step. -/
theorem C10_marker_text_is_extracted_label {image out : List Node}
    {direction : Bool}
    (h : update_step image direction = (out, none)) :
    ∃ new_step : Int,
      new_step ∈ (extract_relevant_groups image).map (fun q => q.1) ∧
      (∃ i n, findStepLayer out = some (i, n) ∧
        n.text = toString new_step) ∧
      ∃ image1, update_visibility_doc image1 (extract_relevant_groups image)
        new_step = some out := by
  unfold update_step at h
  cases hfind : findStepLayer image with
  | none => rw [hfind] at h; simp at h
  | some q =>
    obtain ⟨idx, stepLayer⟩ := q
    rw [hfind] at h
    dsimp only at h
    cases hparse : pyParseInt stepLayer.text with
    | none => rw [hparse] at h; simp at h
    | some current_step =>
      rw [hparse] at h
      dsimp only at h
      cases hadj : adjacent_label
          ((extract_relevant_groups image).map (fun q => q.1))
          current_step direction with
      | none => rw [hadj] at h; simp at h
      | some new_step =>
        rw [hadj] at h
        dsimp only at h
        cases hupd : update_visibility_doc
            (modifyIdx image idx (fun n => { n with text := toString new_step }))
            (extract_relevant_groups image) new_step with
        | none => rw [hupd] at h; simp at h
        | some image2 =>
          rw [hupd] at h
          simp only [Prod.mk.injEq] at h
          obtain ⟨hout, -⟩ := h
          subst hout
          refine ⟨new_step, adjacent_mem hadj, ?_, ⟨_, hupd⟩⟩
          have hp : ∀ n : Node,
              ((fun n : Node => { n with text := toString new_step }) n).isText =
                n.isText ∧
              ((fun n : Node => { n with text := toString new_step }) n).name =
                n.name := fun n => ⟨rfl, rfl⟩
          have hfind1 := findStepLayer_modifyIdx hp image idx stepLayer hfind
          have hkey := update_visibility_doc_map_key hupd
          obtain ⟨n₂, h₂, hk⟩ := findStepLayer_congr_key hkey hfind1
          refine ⟨idx, n₂, h₂, ?_⟩
          exact congrArg (fun p => p.2.2) hk

/-- Witness for C10: a document whose marker holds 30 but whose only group
label is 10; advancing saturates to 10, a member of the label set. -/
theorem C10_marker_text_is_extracted_label_witness :
    update_step
        [Node.mk "step" false true "30" true 100 [],
         Node.mk "#10# a" true false "" false 50 []] true =
      ([Node.mk "step" false true "10" true 100 [],
        Node.mk "#10# a" true false "" true 100 []], none) ∧
    ∃ new_step : Int,
      new_step ∈ (extract_relevant_groups
        [Node.mk "step" false true "30" true 100 [],
         Node.mk "#10# a" true false "" false 50 []]).map (fun q => q.1) ∧
      (∃ i n, findStepLayer
          [Node.mk "step" false true "10" true 100 [],
           Node.mk "#10# a" true false "" true 100 []] = some (i, n) ∧
        n.text = toString new_step) ∧
      ∃ image1, update_visibility_doc image1
        (extract_relevant_groups
          [Node.mk "step" false true "30" true 100 [],
           Node.mk "#10# a" true false "" false 50 []])
        new_step = some
          [Node.mk "step" false true "10" true 100 [],
           Node.mk "#10# a" true false "" true 100 []] :=
  ⟨by decide,
    @C10_marker_text_is_extracted_label
      [Node.mk "step" false true "30" true 100 [],
       Node.mk "#10# a" true false "" false 50 []]
      [Node.mk "step" false true "10" true 100 [],
       Node.mk "#10# a" true false "" true 100 []] true (by decide)⟩


/-! ### The round trip of claim C7 -/

/-- The round-trip example document: marker at 30, groups 10, 30, 50, each
with a hint and a color member. -/
def rtDoc : List Node :=
  [⟨"step", false, true, "30", true, 100, []⟩,
   exNode "#10# base", exNode "#30# mid", exNode "#50# top"]

/-- Claim C7 counterexample: advancing and then retreating from step 30
does return the marker to 30, but the resulting document differs from the
one produced by applying the updater directly at step 30: the color member
of the hidden group 50 keeps the fill painted during the advance, while the
direct application leaves its original fill. -/
theorem C7_counterexample :
    (update_step (update_step rtDoc true).1 false).2 = none ∧
    ((update_step (update_step rtDoc true).1 false).1[0]?).map
      (fun n => n.text) = some "30" ∧
    (update_visibility_doc rtDoc (extract_relevant_groups rtDoc) 30).isSome =
      true ∧
    some (update_step (update_step rtDoc true).1 false).1 ≠
      update_visibility_doc rtDoc (extract_relevant_groups rtDoc) 30 ∧
    ((update_step (update_step rtDoc true).1 false).1[3]?).map
      (fun n => n.members.map (fun m => m.fill)) =
      some ["#FFFFFF", "#FF0000"] ∧
    ((update_visibility_doc rtDoc (extract_relevant_groups rtDoc) 30).getD
        [])[3]?.map (fun n => n.members.map (fun m => m.fill)) =
      some ["#FFFFFF", "#123456"] := by
  decide


/-- Claim C7 amended: advance then retreat from step 30 over labels
10, 30, 50 completes, returns the marker text to 30 and agrees with the
direct application of the updater at step 30 on the marker node, on the
full state of the shown groups 10 and 30, and on the visibility flag of
group 50; only that hidden group may keep the opacity, hint visibility and
color fill written during the advance. -/
theorem C7_amended_round_trip (mv : Bool) (mo : Nat)
    (mm ms1 ms2 ms3 : List MemberLayer) (v1 v2 v3 : Bool) (o1 o2 o3 : Nat) :
    ∃ rt d3 : List Node,
      update_step (update_step
        [Node.mk "step" false true "30" mv mo mm,
         Node.mk "#10# a" true false "" v1 o1 ms1,
         Node.mk "#30# b" true false "" v2 o2 ms2,
         Node.mk "#50# c" true false "" v3 o3 ms3] true).1 false =
        (rt, none) ∧
      update_visibility_doc
        [Node.mk "step" false true "30" mv mo mm,
         Node.mk "#10# a" true false "" v1 o1 ms1,
         Node.mk "#30# b" true false "" v2 o2 ms2,
         Node.mk "#50# c" true false "" v3 o3 ms3]
        (extract_relevant_groups
          [Node.mk "step" false true "30" mv mo mm,
           Node.mk "#10# a" true false "" v1 o1 ms1,
           Node.mk "#30# b" true false "" v2 o2 ms2,
           Node.mk "#50# c" true false "" v3 o3 ms3]) 30 = some d3 ∧
      rt[0]? = some (Node.mk "step" false true "30" mv mo mm) ∧
      d3[0]? = some (Node.mk "step" false true "30" mv mo mm) ∧
      rt[1]? = d3[1]? ∧
      rt[2]? = d3[2]? ∧
      (rt[3]?).map (fun n => n.visible) = some false ∧
      (d3[3]?).map (fun n => n.visible) = some false := by
  have h1 : update_step
      [Node.mk "step" false true "30" mv mo mm,
       Node.mk "#10# a" true false "" v1 o1 ms1,
       Node.mk "#30# b" true false "" v2 o2 ms2,
       Node.mk "#50# c" true false "" v3 o3 ms3] true =
      ([Node.mk "step" false true "50" mv mo mm,
        Node.mk "#10# a" true false "" true 100
          (setColor "#0000FF" (setHint false ms1)),
        Node.mk "#30# b" true false "" true 100
          (setColor "#00FF00" (setHint false ms2)),
        Node.mk "#50# c" true false "" true 100
          (setColor "#FF0000" (setHint true ms3))], none) := rfl
  have h2 : update_step
      [Node.mk "step" false true "50" mv mo mm,
       Node.mk "#10# a" true false "" true 100
         (setColor "#0000FF" (setHint false ms1)),
       Node.mk "#30# b" true false "" true 100
         (setColor "#00FF00" (setHint false ms2)),
       Node.mk "#50# c" true false "" true 100
         (setColor "#FF0000" (setHint true ms3))] false =
      ([Node.mk "step" false true "30" mv mo mm,
        Node.mk "#10# a" true false "" true 100
          (setColor "#00FF00" (setHint false
            (setColor "#0000FF" (setHint false ms1)))),
        Node.mk "#30# b" true false "" true 100
          (setColor "#FF0000" (setHint true
            (setColor "#00FF00" (setHint false ms2)))),
        Node.mk "#50# c" true false "" false 100
          (setColor "#FF0000" (setHint true ms3))], none) := rfl
  have h3 : update_visibility_doc
      [Node.mk "step" false true "30" mv mo mm,
       Node.mk "#10# a" true false "" v1 o1 ms1,
       Node.mk "#30# b" true false "" v2 o2 ms2,
       Node.mk "#50# c" true false "" v3 o3 ms3]
      (extract_relevant_groups
        [Node.mk "step" false true "30" mv mo mm,
         Node.mk "#10# a" true false "" v1 o1 ms1,
         Node.mk "#30# b" true false "" v2 o2 ms2,
         Node.mk "#50# c" true false "" v3 o3 ms3]) 30 =
      some [Node.mk "step" false true "30" mv mo mm,
        Node.mk "#10# a" true false "" true 100
          (setColor "#00FF00" (setHint false ms1)),
        Node.mk "#30# b" true false "" true 100
          (setColor "#FF0000" (setHint true ms2)),
        Node.mk "#50# c" true false "" false o3 ms3] := rfl
  refine ⟨[Node.mk "step" false true "30" mv mo mm,
    Node.mk "#10# a" true false "" true 100
      (setColor "#00FF00" (setHint false
        (setColor "#0000FF" (setHint false ms1)))),
    Node.mk "#30# b" true false "" true 100
      (setColor "#FF0000" (setHint true
        (setColor "#00FF00" (setHint false ms2)))),
    Node.mk "#50# c" true false "" false 100
      (setColor "#FF0000" (setHint true ms3))], _,
    ?_, h3, rfl, rfl, ?_, ?_, rfl, rfl⟩
  · rw [h1]
    exact h2
  · show some (Node.mk "#10# a" true false "" true 100
        (setColor "#00FF00" (setHint false
          (setColor "#0000FF" (setHint false ms1))))) =
      some (Node.mk "#10# a" true false "" true 100
        (setColor "#00FF00" (setHint false ms1)))
    rw [style_collapse]
  · show some (Node.mk "#30# b" true false "" true 100
        (setColor "#FF0000" (setHint true
          (setColor "#00FF00" (setHint false ms2))))) =
      some (Node.mk "#30# b" true false "" true 100
        (setColor "#FF0000" (setHint true ms2)))
    rw [style_collapse]

end LayersVisibility
